/-
Verification of the box-storage flat-file web application (src/app.py).

The application state is a filesystem under a data directory holding
`boxes/<id>.md` markdown files and `photos/<id>/<name>` image files.  We
embed that state as an association-list structure `FS` and translate each
Python helper and route handler into a Lean function over `FS`.  Python
string primitives used by the source (`str.strip`, `str.lstrip`,
`str.split`, `str.lower`, `str.rsplit('.', 1)`, `pathlib.PurePath.suffix`)
are embedded character-list by character-list.
-/
import Mathlib

namespace BoxStorage

/-! ### Python string primitives -/

/-- Python `str.lower()` restricted to ASCII case mapping (all strings the
source compares are ASCII). -/
def pyLower (s : String) : String := ⟨s.data.map Char.toLower⟩

/-- The characters Python's no-argument `str.split()` / `str.strip()` treat
as whitespace (ASCII part). -/
def pyIsSpace (c : Char) : Bool :=
  c == ' ' || c == '\t' || c == '\n' || c == '\r' || c == '\x0b' || c == '\x0c'

/-- Drop the characters satisfying `p` from both ends of a list:
the common core of Python `str.strip(chars)`. -/
def stripBoth (p : Char → Bool) (l : List Char) : List Char :=
  ((l.dropWhile p).reverse.dropWhile p).reverse

/-- Python `str.strip()` (no argument: strip whitespace from both ends). -/
def pyStrip (s : String) : String := ⟨stripBoth pyIsSpace s.data⟩

/-- Python `str.lstrip('# ')`: drop leading `'#'` and `' '` characters. -/
def pyLstripHashSpace (s : String) : String :=
  ⟨s.data.dropWhile (fun c => c == '#' || c == ' ')⟩

/-- Python `str.lstrip('.')`: drop leading `'.'` characters. -/
def pyLstripDot (s : String) : String :=
  ⟨s.data.dropWhile (fun c => c == '.')⟩

/-- Split a character list at every character satisfying `p`, keeping the
(possibly empty) pieces between separators.  The result is never empty. -/
def splitOnPred (p : Char → Bool) : List Char → List (List Char)
  | [] => [[]]
  | c :: cs =>
    let r := splitOnPred p cs
    if p c then [] :: r
    else
      match r with
      | [] => [[c]]
      | h :: t => (c :: h) :: t

/-- Split a character list on a separator character.  Mirrors Python
`str.split(sep)` for a one-character separator: splitting the empty string
yields `[[]]`. -/
def splitOnChar (sep : Char) (l : List Char) : List (List Char) :=
  splitOnPred (fun c => c == sep) l

/-- Python `s.split(sep)` for a one-character separator. -/
def pySplit (s : String) (sep : Char) : List String :=
  (splitOnChar sep s.data).map (fun l => String.mk l)

/-- The part of `s` after its last `'.'`:
Python `s.rsplit('.', 1)[1]` when `'.' in s`. -/
def extAfterLastDot (s : String) : String :=
  ⟨(s.data.reverse.takeWhile (fun c => c != '.')).reverse⟩

/-! ### The filesystem state -/

/-- The durable state of the application: the contents of the data
directory.  `boxes` maps a box id to the text of `boxes/<id>.md`;
`photos` maps a box id to the files of the directory `photos/<id>`
(filename to raw bytes, bytes kept abstract as a string).  A key is present
in `photos` exactly when the per-box photo directory exists. -/
structure FS where
  boxes : List (String × String)
  photos : List (String × List (String × String))
  deriving DecidableEq, Repr

/-! ### Embedded helpers from src/app.py -/

/-- `ALLOWED_EXTENSIONS = {'png', 'jpg', 'jpeg', 'gif', 'webp'}` -/
def ALLOWED_EXTENSIONS : List String := ["png", "jpg", "jpeg", "gif", "webp"]

/-- `allowed_file`: `'.' in filename and filename.rsplit('.', 1)[1].lower()
in ALLOWED_EXTENSIONS`. -/
def allowed_file (filename : String) : Bool :=
  filename.data.contains '.'
    && ALLOWED_EXTENSIONS.contains (pyLower (extAfterLastDot filename))

/-- `pathlib.PurePath.suffix` of a single path component: the final
extension including its dot, or `""` when the name has no dot, starts with
its only dot, or ends with a dot (`0 < i < len(name) - 1` in pathlib). -/
def pySuffix (name : String) : String :=
  let d := name.data
  if '.' ∈ d then
    let tail := (d.reverse.takeWhile (fun c => c != '.')).reverse
    if 1 ≤ tail.length ∧ tail.length < d.length - 1 then ⟨'.' :: tail⟩ else ""
  else ""

/-- Lexicographic ≤ on character lists by code point, as Python compares
strings. -/
def lexLe : List Char → List Char → Bool
  | [], _ => true
  | _ :: _, [] => false
  | a :: as, b :: bs => if a < b then true else if b < a then false else lexLe as bs

/-- Insert into a ≤-sorted list of strings. -/
def insertStr (x : String) : List String → List String
  | [] => [x]
  | y :: ys => if lexLe x.data y.data then x :: y :: ys else y :: insertStr x ys

/-- Python `sorted` on strings (insertion sort; any correct sort). -/
def sortStrings : List String → List String
  | [] => []
  | x :: xs => insertStr x (sortStrings xs)

/-- `get_box_photos(box_id)`: empty when the photo directory is absent,
otherwise the sorted directory listing filtered to names whose pathlib
suffix, lowercased and with leading dots removed, is an allowed image
extension. -/
def get_box_photos (fs : FS) (box_id : String) : List String :=
  match fs.photos.lookup box_id with
  | none => []
  | some files =>
    (sortStrings (files.map Prod.fst)).filter
      (fun f => ALLOWED_EXTENSIONS.contains (pyLstripDot (pyLower (pySuffix f))))

/-- Title derivation used by `get_all_boxes` (and repeated in `search`):
`lines = content.strip().split('\n')`;
`title = lines[0].lstrip('# ').strip() if lines else box_id`.
The `else` arm mirrors Python's truthiness test on the list `lines`. -/
def boxTitle (box_id content : String) : String :=
  match pySplit (pyStrip content) '\n' with
  | [] => box_id
  | l :: _ => pyStrip (pyLstripHashSpace l)

/-- `get_all_boxes()`: every `boxes/*.md` record as (id, derived title).
The source also attaches the file's modification time and sorts by it
descending; modification times live outside the embedded state, so the
entries are returned in store order (a permutation of the source's order —
no claim below depends on the ordering). -/
def get_all_boxes (fs : FS) : List (String × String) :=
  fs.boxes.map (fun p => (p.1, boxTitle p.1 p.2))

/-- `get_box_content(box_id)`: the text of `boxes/<box_id>.md`, or `None`. -/
def get_box_content (fs : FS) (box_id : String) : Option String :=
  fs.boxes.lookup box_id

/-- `save_box_content(box_id, content)`: `write_text` creates or replaces
`boxes/<box_id>.md`. -/
def save_box_content (fs : FS) (box_id content : String) : FS :=
  { fs with boxes := (box_id, content) :: fs.boxes.filter (fun p => p.1 != box_id) }

/-! ### Easy handler embeddings -/

/-- The markdown template written for a freshly viewed box. -/
def boxTemplate (box_id : String) : String :=
  "# " ++ box_id ++ "\n\n## Contents\n\n- \n\n## Location\n\n\n## Notes\n\n"

/-- The state effect of `view_box`: create the record with the template
when absent, otherwise leave the store untouched (QR generation and photo
listing are pure reads). -/
def view_box (fs : FS) (box_id : String) : FS :=
  match get_box_content fs box_id with
  | none => save_box_content fs box_id (boxTemplate box_id)
  | some _ => fs

/-- `search`: lowercase the raw query; an empty (falsy) query yields no
results; otherwise return, for each record whose lowercased content has the
query as a substring, its id, derived title, and up to three stripped
matching lines. -/
def search (fs : FS) (rawQuery : String) : List (String × String × List String) :=
  let query := pyLower rawQuery
  if query = "" then []
  else
    fs.boxes.filterMap (fun p =>
      let content := p.2
      if query.data <:+: (pyLower content).data then
        let lines := pySplit (pyStrip content) '\n'
        let title := match lines with
          | [] => p.1
          | l :: _ => pyStrip (pyLstripHashSpace l)
        some (p.1, title,
          ((lines.filter (fun l => decide (query.data <:+: (pyLower l).data))).map
            pyStrip).take 3)
      else none)

/-- `delete_box`: unlink `boxes/<id>.md` if it exists, then unlink every
file of `photos/<id>` and remove the directory if it exists. -/
def delete_box (fs : FS) (box_id : String) : FS :=
  { boxes := fs.boxes.filter (fun p => p.1 != box_id),
    photos := fs.photos.filter (fun p => p.1 != box_id) }

/-- The raw bytes stored at `photos/<box_id>/<fname>`, if that file exists. -/
def photo_bytes (fs : FS) (box_id fname : String) : Option String :=
  (fs.photos.lookup box_id).bind (fun files => files.lookup fname)

/-! ### Timestamps and photo upload -/

/-- A wall-clock instant as `datetime.now()` exposes it to `strftime`. -/
structure DateTime where
  year : Nat
  month : Nat
  day : Nat
  hour : Nat
  minute : Nat
  second : Nat
  deriving DecidableEq, Repr

/-- Decimal rendering of `n` zero-padded on the left to width `w`
(Python `'%0wd' % n` for nonnegative `n`): the character list of `str(n)`
preceded by the missing zeros. -/
def padNum (w n : Nat) : List Char :=
  let d := Nat.toDigits 10 n
  List.replicate (w - d.length) '0' ++ d

/-- `datetime.strftime('%Y%m%d_%H%M%S')`. -/
def strftimeTS (t : DateTime) : String :=
  ⟨padNum 4 t.year ++ padNum 2 t.month ++ padNum 2 t.day ++ ['_'] ++
    padNum 2 t.hour ++ padNum 2 t.minute ++ padNum 2 t.second⟩

/-- `upload_photo(box_id)`.  `file` is the optional `photo` part of the
request (`none` when absent), carrying the client-supplied filename; `bytes`
is the uploaded content; `now` is the current time.  Missing part, empty
filename or disallowed extension: redirect with no state change.  Otherwise
create the photo directory if needed and save under
`<YYYYMMDD_HHMMSS>.<ext>` (overwriting any same-named file, as
`file.save` does). -/
def upload_photo (fs : FS) (box_id : String) (file : Option String)
    (bytes : String) (now : DateTime) : FS :=
  match file with
  | none => fs
  | some fname =>
    if fname = "" then fs
    else if allowed_file fname then
      let files := (fs.photos.lookup box_id).getD []
      let ext := pyLower (extAfterLastDot fname)
      let filename := strftimeTS now ++ "." ++ ext
      { fs with photos :=
          (box_id, (filename, bytes) :: files.filter (fun p => p.1 != filename)) ::
            fs.photos.filter (fun p => p.1 != box_id) }
    else fs

/-! ### The filename sanitizer

The source serves and deletes photos through
`PHOTOS_DIR / box_id / secure_filename(filename)`.  `secure_filename` is
the werkzeug library routine (a dependency, not in src/), modelled here
from its documented algorithm: project to ASCII, turn path separators into
spaces, join the whitespace-separated words with underscores, erase every
character outside `[A-Za-z0-9_.-]`, and strip leading and trailing `'.'`
and `'_'` characters.  (The ASCII projection stands in for werkzeug's
NFKD-normalize-then-ascii-encode step; the claims proved below depend only
on the later, exactly-modelled steps.) -/

/-- The character class kept by werkzeug's ascii-strip pattern. -/
def allowedFnChar (c : Char) : Bool :=
  c.isAlphanum || c == '_' || c == '.' || c == '-'

/-- Python `str.split()`: the maximal whitespace-free words. -/
def pyWords (l : List Char) : List (List Char) :=
  (splitOnPred pyIsSpace l).filter (fun w => !w.isEmpty)

/-- werkzeug `secure_filename`, modelled as described above. -/
def secure_filename (filename : String) : String :=
  let ascii := filename.data.filter (fun c => c.toNat < 128)
  let seps := ascii.map (fun c => if c = '/' then ' ' else c)
  let joined := List.intercalate ['_'] (pyWords seps)
  let kept := joined.filter allowedFnChar
  ⟨stripBoth (fun c => c == '.' || c == '_') kept⟩

/-- `get_photo(box_id, filename)`: the bytes at
`PHOTOS_DIR / box_id / secure_filename(filename)`, or a 404. -/
def get_photo (fs : FS) (box_id filename : String) : Option String :=
  photo_bytes fs box_id (secure_filename filename)

/-- `delete_photo(box_id, filename)`: unlink the sanitized path if it
exists. -/
def delete_photo (fs : FS) (box_id filename : String) : FS :=
  { fs with photos := fs.photos.map (fun p =>
      if p.1 == box_id then
        (p.1, p.2.filter (fun q => q.1 != secure_filename filename))
      else p) }

/-! ### Box id generation -/

/-- Python `f"box-{counter:03d}"`: `"box-"` followed by the decimal digits
of `counter`, zero-padded to width 3. -/
def boxIdFormat (counter : Nat) : String :=
  ⟨['b', 'o', 'x', '-'] ++ padNum 3 counter⟩

/-- The `while f"box-{counter:03d}" in existing: counter += 1` scan of
`generate_box_id`.  The source loop always terminates because `existing`
is finite; the fuel `existing.length + 1` is proved sufficient below
(`genLoop_spec` with `exists_free_counter`), so the fuel-0 fallback is
never reached. -/
def genLoop (existing : List String) : Nat → Nat → String
  | 0, counter => boxIdFormat counter
  | fuel + 1, counter =>
    if boxIdFormat counter ∈ existing then genLoop existing fuel (counter + 1)
    else boxIdFormat counter

/-- The `generate_box_id` scan as a function of the list of stems of
`boxes/*.md`. -/
def genFromList (existing : List String) : String :=
  genLoop existing (existing.length + 1) 1

/-- `generate_box_id()`: scan from 1 over the stems of `boxes/*.md`. -/
def generate_box_id (fs : FS) : String :=
  genFromList (fs.boxes.map Prod.fst)

/-! ### Storage path construction

Paths are modelled as segment lists relative to the data directory.
`pathJoin` embeds `pathlib`'s `/` operator: the right operand is cut at
`'/'` characters, empty and `"."` components are dropped, and an absolute
right operand replaces the base.  `normSegs` resolves `".."` components the
way the filesystem does (popping one directory, or accumulating when there
is nothing left to pop), so "the built path stays under directory `d`"
is "`normSegs d` is a prefix of `normSegs p`". -/

/-- Cut a string into its path components as `pathlib` parses it:
split at `'/'`, dropping empty components and `"."`. -/
def splitSegs (s : String) : List String :=
  ((splitOnChar '/' s.data).map (fun l => String.mk l)).filter
    (fun t => t != "" && t != ".")

/-- `pathlib` `base / s` on POSIX, as a segment list. -/
def pathJoin (base : List String) (s : String) : List String :=
  if s.data.head? = some '/' then splitSegs s else base ++ splitSegs s

/-- One step of `".."` resolution over a reversed accumulator. -/
def normStep (acc : List String) (s : String) : List String :=
  if s = ".." then
    match acc with
    | [] => [".."]
    | h :: t => if h = ".." then s :: acc else t
  else s :: acc

/-- Resolve `".."` components of a segment list. -/
def normSegs (segs : List String) : List String :=
  (segs.foldl normStep []).reverse

/-- `BOXES_DIR / f"{box_id}.md"` relative to the data directory. -/
def boxMdPath (box_id : String) : List String :=
  pathJoin ["boxes"] (box_id ++ ".md")

/-- `PHOTOS_DIR / box_id` relative to the data directory. -/
def photoDirPath (box_id : String) : List String :=
  pathJoin ["photos"] box_id

/-- `PHOTOS_DIR / box_id / secure_filename(filename)` relative to the data
directory (the path served by `get_photo` and unlinked by
`delete_photo`). -/
def photoFilePath (box_id filename : String) : List String :=
  pathJoin (photoDirPath box_id) (secure_filename filename)

/-! ## Shared lemmas -/

theorem lookup_filter_ne_self {β : Type} (l : List (String × β)) (k : String) :
    List.lookup k (l.filter (fun p => p.1 != k)) = none := by
  induction l with
  | nil => simp
  | cons h t ih =>
    by_cases hk : h.1 = k
    · simp [List.filter, hk, ih]
    · simp only [List.filter]
      have hb : (h.1 != k) = true := by simp [hk]
      rw [hb]
      simp only [List.lookup]
      have hb2 : (k == h.1) = false := by simp [Ne.symm hk]
      rw [hb2]
      exact ih

theorem lookup_cons_self {β : Type} (k : String) (v : β) (l : List (String × β)) :
    List.lookup k ((k, v) :: l) = some v := by simp [List.lookup]

/-! ## C2: write/read round trip -/

/-- C2: for every store state, box id and content string, writing the
content and immediately reading it back returns exactly that content,
whether or not a record existed before (overwriting raises no error). -/
theorem c2_write_read_roundtrip (fs : FS) (box_id content : String) :
    get_box_content (save_box_content fs box_id content) box_id = some content := by
  simp [get_box_content, save_box_content, lookup_cons_self]

/-! ## C9: empty search query -/

/-- C9: searching with an empty query string returns the empty result list
on every store state, even though the empty string is a substring of every
content. -/
theorem c9_empty_query_no_results (fs : FS) : search fs "" = [] := rfl

/-! ## C10: viewing an existing box changes nothing -/

/-- C10: when a record for the box id already exists, the view-box
operation leaves the entire store (every box's content and every photo)
unchanged. -/
theorem c10_view_existing_box_frame (fs : FS) (box_id content : String)
    (h : get_box_content fs box_id = some content) : view_box fs box_id = fs := by
  simp [view_box, h]

theorem c10_view_existing_box_frame_witness :
    get_box_content ⟨[("box-001", "hi")], []⟩ "box-001" = some "hi"
    ∧ view_box ⟨[("box-001", "hi")], []⟩ "box-001" = ⟨[("box-001", "hi")], []⟩ :=
  ⟨by decide, c10_view_existing_box_frame ⟨[("box-001", "hi")], []⟩ "box-001" "hi" (by decide)⟩

/-! ## C4: auto-creation with the template -/

/-- C4: viewing an absent box id creates a record whose content starts
with `# <id>`, contains the `Contents`, `Location` and `Notes` section
headers, and a subsequent read returns exactly that template. -/
theorem c4_view_creates_template (fs : FS) (box_id : String)
    (h : get_box_content fs box_id = none) :
    get_box_content (view_box fs box_id) box_id = some (boxTemplate box_id)
    ∧ (∃ rest, boxTemplate box_id = "# " ++ box_id ++ rest)
    ∧ "## Contents".data <:+: (boxTemplate box_id).data
    ∧ "## Location".data <:+: (boxTemplate box_id).data
    ∧ "## Notes".data <:+: (boxTemplate box_id).data := by
  refine ⟨?_, ⟨"\n\n## Contents\n\n- \n\n## Location\n\n\n## Notes\n\n", rfl⟩, ?_, ?_, ?_⟩
  · simp only [view_box, h]
    exact c2_write_read_roundtrip fs box_id (boxTemplate box_id)
  · have hsplit : ("\n\n## Contents\n\n- \n\n## Location\n\n\n## Notes\n\n" : String).data
        = "\n\n".data ++ "## Contents".data ++ "\n\n- \n\n## Location\n\n\n## Notes\n\n".data := by
      decide
    exact ⟨"# ".data ++ box_id.data ++ "\n\n".data,
      "\n\n- \n\n## Location\n\n\n## Notes\n\n".data, by
        simp only [boxTemplate, String.data_append, hsplit, List.append_assoc]
        congr 1⟩
  · have hsplit : ("\n\n## Contents\n\n- \n\n## Location\n\n\n## Notes\n\n" : String).data
        = "\n\n## Contents\n\n- \n\n".data ++ "## Location".data ++ "\n\n\n## Notes\n\n".data := by
      decide
    exact ⟨"# ".data ++ box_id.data ++ "\n\n## Contents\n\n- \n\n".data,
      "\n\n\n## Notes\n\n".data, by
        simp only [boxTemplate, String.data_append, hsplit, List.append_assoc]
        congr 1⟩
  · have hsplit : ("\n\n## Contents\n\n- \n\n## Location\n\n\n## Notes\n\n" : String).data
        = "\n\n## Contents\n\n- \n\n## Location\n\n\n".data ++ "## Notes".data ++ "\n\n".data := by
      decide
    exact ⟨"# ".data ++ box_id.data ++ "\n\n## Contents\n\n- \n\n## Location\n\n\n".data,
      "\n\n".data, by
        simp only [boxTemplate, String.data_append, hsplit, List.append_assoc]
        congr 1⟩

theorem c4_view_creates_template_witness :
    get_box_content (⟨[], []⟩ : FS) "box-001" = none
    ∧ (get_box_content (view_box ⟨[], []⟩ "box-001") "box-001" = some (boxTemplate "box-001")
      ∧ (∃ rest, boxTemplate "box-001" = "# " ++ "box-001" ++ rest)
      ∧ "## Contents".data <:+: (boxTemplate "box-001").data
      ∧ "## Location".data <:+: (boxTemplate "box-001").data
      ∧ "## Notes".data <:+: (boxTemplate "box-001").data) :=
  ⟨by decide, c4_view_creates_template ⟨[], []⟩ "box-001" (by decide)⟩

/-! ## C6: deleting a box -/

/-- C6: deleting a box removes its markdown record, its whole photo
directory and every file in it; afterwards the listing excludes the box,
reading any former photo reports not found, and deleting again is a no-op
(deletion never errors when the record or directory is absent). -/
theorem c6_delete_box (fs : FS) (box_id : String) :
    get_box_content (delete_box fs box_id) box_id = none
    ∧ box_id ∉ (get_all_boxes (delete_box fs box_id)).map Prod.fst
    ∧ (delete_box fs box_id).photos.lookup box_id = none
    ∧ (∀ fname, get_photo (delete_box fs box_id) box_id fname = none)
    ∧ get_box_photos (delete_box fs box_id) box_id = []
    ∧ delete_box (delete_box fs box_id) box_id = delete_box fs box_id := by
  have hphotos : (delete_box fs box_id).photos.lookup box_id = none :=
    lookup_filter_ne_self fs.photos box_id
  refine ⟨lookup_filter_ne_self fs.boxes box_id, ?_, hphotos, ?_, ?_, ?_⟩
  · intro hmem
    simp only [get_all_boxes, delete_box, List.map_map, List.mem_map,
      List.mem_filter] at hmem
    obtain ⟨p, ⟨_, hne⟩, heq⟩ := hmem
    simp only [Function.comp] at heq
    rw [heq] at hne
    simp at hne
  · intro fname
    simp [get_photo, photo_bytes, hphotos]
  · simp [get_box_photos, hphotos]
  · simp only [delete_box, List.filter_filter]
    congr 1 <;> {
      apply List.filter_congr
      intro p _
      simp [Bool.and_self] }

/-! ## C7: disallowed upload is a silent no-op -/

/-- C7: uploading a file whose extension is not in the allowed set
png/jpg/jpeg/gif/webp (compared case-insensitively), such as `exe`, leaves
the entire store unchanged — no file is stored and the box's photo list is
the same afterwards. -/
theorem c7_disallowed_upload_noop (fs : FS) (box_id fname bytes : String)
    (now : DateTime) (h : allowed_file fname = false) :
    upload_photo fs box_id (some fname) bytes now = fs
    ∧ get_box_photos (upload_photo fs box_id (some fname) bytes now) box_id
        = get_box_photos fs box_id := by
  have h1 : upload_photo fs box_id (some fname) bytes now = fs := by
    by_cases he : fname = "" <;> simp [upload_photo, h, he]
  exact ⟨h1, by rw [h1]⟩

theorem c7_disallowed_upload_noop_witness :
    allowed_file "virus.exe" = false
    ∧ upload_photo ⟨[], [("box-001", [("a.png", "b")])]⟩ "box-001" (some "virus.exe")
        "payload" ⟨2024, 1, 1, 10, 0, 0⟩ = ⟨[], [("box-001", [("a.png", "b")])]⟩ :=
  ⟨by decide,
    (c7_disallowed_upload_noop ⟨[], [("box-001", [("a.png", "b")])]⟩ "box-001" "virus.exe"
      "payload" ⟨2024, 1, 1, 10, 0, 0⟩ (by decide)).1⟩

/-! ## C5: list titles

The claim's fallback-to-id clause fails on the code: Python's
`''.split('\n')` is `['']`, never `[]`, so the `if lines else box_id` arm
is dead and a box with empty content is listed with title `""`. -/

theorem splitOnPred_ne_nil (p : Char → Bool) (l : List Char) : splitOnPred p l ≠ [] := by
  cases l with
  | nil => simp [splitOnPred]
  | cons c cs =>
    simp only [splitOnPred]
    split
    · simp
    · split <;> simp

/-- The title the amended C5 describes: first line of the
whitespace-stripped content, leading `'#'`/`' '` characters and
surrounding whitespace removed — with no fallback to the box id. -/
def titleFirstLine (content : String) : String :=
  pyStrip (pyLstripHashSpace ((pySplit (pyStrip content) '\n').headD ""))

theorem boxTitle_eq_titleFirstLine (box_id content : String) :
    boxTitle box_id content = titleFirstLine content := by
  unfold boxTitle titleFirstLine
  cases hr : pySplit (pyStrip content) '\n' with
  | nil =>
    exfalso
    have := splitOnPred_ne_nil (fun c => c == '\n') (pyStrip content).data
    simp only [pySplit, splitOnChar, List.map_eq_nil_iff] at hr
    exact this hr
  | cons l ls => simp [hr]

/-- C5 counterexample: a store with one box whose content is empty.  The
listing reports the empty string as its title, not the box id. -/
theorem c5_empty_content_counterexample :
    get_all_boxes ⟨[("box-001", "")], []⟩ = [("box-001", "")]
    ∧ ("" : String) ≠ "box-001" := by decide

/-- C5 (amended): for every box, `list()` reports its title as the first
line of the whitespace-stripped content with leading `'#'`/`' '` and
surrounding whitespace removed; for empty content that title is the empty
string — the box-id fallback in the source is unreachable. -/
theorem c5_title_derivation_amended (fs : FS) :
    get_all_boxes fs = fs.boxes.map (fun p => (p.1, titleFirstLine p.2))
    ∧ titleFirstLine "" = "" := by
  refine ⟨?_, by decide⟩
  unfold get_all_boxes
  apply List.map_congr_left
  intro p _
  rw [boxTitle_eq_titleFirstLine]

/-! ## C8: stored photo filename

The claim fails as stated: the source lowercases the extension
(`file.filename.rsplit('.', 1)[1].lower()`), so the original extension of
`a.JPG` is not preserved — the file is stored as `<timestamp>.jpg`. -/

/-- C8 counterexample: uploading `a.JPG` at 2024-01-01 10:00:00 stores
`20240101_100000.jpg`, which is not `<timestamp>.JPG`. -/
theorem c8_extension_lowercased_counterexample :
    allowed_file "a.JPG" = true
    ∧ get_box_photos
        (upload_photo ⟨[], []⟩ "box-001" (some "a.JPG") "bytes" ⟨2024, 1, 1, 10, 0, 0⟩)
        "box-001" = ["20240101_100000.jpg"]
    ∧ "20240101_100000.jpg" ≠ strftimeTS ⟨2024, 1, 1, 10, 0, 0⟩ ++ "." ++ "JPG" := by
  decide

/-- C8 (amended): every accepted upload is stored under the filename
`<YYYYMMDD_HHMMSS>.<ext>` derived from the current time, where `<ext>` is
the original extension of the uploaded filename in lowercase. -/
theorem c8_stored_filename_amended (fs : FS) (box_id fname bytes : String)
    (now : DateTime) (h : allowed_file fname = true) :
    photo_bytes (upload_photo fs box_id (some fname) bytes now) box_id
      (strftimeTS now ++ "." ++ pyLower (extAfterLastDot fname)) = some bytes := by
  have hne : fname ≠ "" := by
    intro he
    subst he
    simp [allowed_file] at h
  simp [upload_photo, hne, h, photo_bytes, lookup_cons_self, List.lookup]

theorem c8_stored_filename_amended_witness :
    allowed_file "a.jpg" = true
    ∧ photo_bytes (upload_photo ⟨[], []⟩ "box-001" (some "a.jpg") "bytes"
        ⟨2024, 1, 1, 10, 0, 0⟩) "box-001"
        (strftimeTS ⟨2024, 1, 1, 10, 0, 0⟩ ++ "." ++ pyLower (extAfterLastDot "a.jpg"))
        = some "bytes" :=
  ⟨by decide, c8_stored_filename_amended ⟨[], []⟩ "box-001" "a.jpg" "bytes"
    ⟨2024, 1, 1, 10, 0, 0⟩ (by decide)⟩

/-! ## C3 groundwork -/

theorem toDigitsCore_eq_digits (fuel : Nat) : ∀ (n : Nat) (ds : List Char), n ≠ 0 → n ≤ fuel →
    Nat.toDigitsCore 10 fuel n ds = ((Nat.digits 10 n).map Nat.digitChar).reverse ++ ds := by
  induction fuel with
  | zero => intro n ds hn hf; omega
  | succ fuel ih =>
    intro n ds hn hf
    by_cases hq : n / 10 = 0
    · have hdig : Nat.digits 10 n = [n % 10] := by
        rw [Nat.digits_def' (by norm_num) (Nat.pos_of_ne_zero hn), hq, Nat.digits_zero]
      simp [Nat.toDigitsCore, hq, hdig]
    · have hdig : Nat.digits 10 n = n % 10 :: Nat.digits 10 (n / 10) :=
        Nat.digits_def' (by norm_num) (Nat.pos_of_ne_zero hn)
      have hlt : n / 10 < n := Nat.div_lt_self (Nat.pos_of_ne_zero hn) (by norm_num)
      have hstep : Nat.toDigitsCore 10 (fuel + 1) n ds
          = Nat.toDigitsCore 10 fuel (n / 10) (Nat.digitChar (n % 10) :: ds) := by
        simp [Nat.toDigitsCore, hq]
      rw [hstep, ih (n / 10) _ hq (by omega), hdig]
      simp [List.append_assoc]

theorem toDigits_eq_digits (n : Nat) (hn : n ≠ 0) :
    Nat.toDigits 10 n = ((Nat.digits 10 n).map Nat.digitChar).reverse := by
  have := toDigitsCore_eq_digits (n + 1) n [] hn (by omega)
  simpa [Nat.toDigits] using this

theorem toDigits_head_ne_zero (n : Nat) (hn : n ≠ 0) (c : Char) (cs : List Char)
    (h : Nat.toDigits 10 n = c :: cs) : c ≠ '0' := by
  rw [toDigits_eq_digits n hn] at h
  have hh : (((Nat.digits 10 n).map Nat.digitChar).reverse).head? = some c := by rw [h]; rfl
  rw [← List.map_reverse, List.head?_map, List.head?_reverse] at hh
  have hne : Nat.digits 10 n ≠ [] := Nat.digits_ne_nil_iff_ne_zero.mpr hn
  rw [List.getLast?_eq_getLast _ hne] at hh
  have hd10 : (Nat.digits 10 n).getLast hne < 10 :=
    Nat.digits_lt_base (by norm_num) (List.getLast_mem hne)
  have hd0 : (Nat.digits 10 n).getLast hne ≠ 0 := Nat.getLast_digit_ne_zero 10 hn
  have hkey : ∀ d, d < 10 → d ≠ 0 → Nat.digitChar d ≠ '0' := by decide
  have : c = Nat.digitChar ((Nat.digits 10 n).getLast hne) := by
    simpa using hh.symm
  rw [this]
  exact hkey _ hd10 hd0

theorem toDigits_ne_nil (n : Nat) (hn : n ≠ 0) : Nat.toDigits 10 n ≠ [] := by
  rw [toDigits_eq_digits n hn]
  simp [Nat.digits_ne_nil_iff_ne_zero.mpr hn]

theorem dropWhile_replicate_append (p : Char → Bool) (a : Char) (hp : p a = true)
    (k : Nat) (l : List Char) :
    (List.replicate k a ++ l).dropWhile p = l.dropWhile p := by
  induction k with
  | zero => simp
  | succ k ih => simp [List.replicate_succ, List.dropWhile_cons, hp, ih]

theorem stripZeros_padNum (n : Nat) (hn : n ≠ 0) :
    (padNum 3 n).dropWhile (fun c => c == '0') = Nat.toDigits 10 n := by
  have hpad : padNum 3 n
      = List.replicate (3 - (Nat.toDigits 10 n).length) '0' ++ Nat.toDigits 10 n := rfl
  cases hd : Nat.toDigits 10 n with
  | nil => exact absurd hd (toDigits_ne_nil n hn)
  | cons c cs =>
    rw [hpad, hd, dropWhile_replicate_append _ '0' (by decide) _ _, List.dropWhile_cons]
    have : (c == '0') = false := by
      have := toDigits_head_ne_zero n hn c cs hd
      simpa using this
    rw [this]
    simp

theorem map_digitChar_cancel (l : List Nat) (hl : ∀ d ∈ l, d < 10) :
    (l.map Nat.digitChar).map (fun c => c.toNat - 48) = l := by
  have hkey : ∀ d, d < 10 → (Nat.digitChar d).toNat = 48 + d := by decide
  rw [List.map_map]
  have : ∀ d ∈ l, ((fun c => c.toNat - 48) ∘ Nat.digitChar) d = d := by
    intro d hd
    simp [Function.comp, hkey d (hl d hd)]
  rw [List.map_congr_left this]
  simp

theorem boxIdFormat_inj (m n : Nat) (hm : m ≠ 0) (hn : n ≠ 0)
    (h : boxIdFormat m = boxIdFormat n) : m = n := by
  have hdata : (['b','o','x','-'] ++ padNum 3 m) = (['b','o','x','-'] ++ padNum 3 n) :=
    congrArg String.data h
  have hpad : padNum 3 m = padNum 3 n := List.append_cancel_left hdata
  have hdig : Nat.toDigits 10 m = Nat.toDigits 10 n := by
    rw [← stripZeros_padNum m hm, ← stripZeros_padNum n hn, hpad]
  rw [toDigits_eq_digits m hm, toDigits_eq_digits n hn] at hdig
  have hmap : (Nat.digits 10 m).map Nat.digitChar = (Nat.digits 10 n).map Nat.digitChar :=
    List.reverse_inj.mp hdig
  have hds : Nat.digits 10 m = Nat.digits 10 n := by
    have h1 := map_digitChar_cancel (Nat.digits 10 m)
      (fun d hd => Nat.digits_lt_base (by norm_num) hd)
    have h2 := map_digitChar_cancel (Nat.digits 10 n)
      (fun d hd => Nat.digits_lt_base (by norm_num) hd)
    rw [← h1, ← h2, hmap]
  calc m = Nat.ofDigits 10 (Nat.digits 10 m) := (Nat.ofDigits_digits 10 m).symm
    _ = Nat.ofDigits 10 (Nat.digits 10 n) := by rw [hds]
    _ = n := Nat.ofDigits_digits 10 n

theorem genLoop_spec (ex : List String) (fuel : Nat) : ∀ (counter : Nat),
    (∃ j, j < fuel ∧ boxIdFormat (counter + j) ∉ ex) →
    ∃ j, j < fuel ∧ genLoop ex fuel counter = boxIdFormat (counter + j)
      ∧ boxIdFormat (counter + j) ∉ ex
      ∧ ∀ i, i < j → boxIdFormat (counter + i) ∈ ex := by
  induction fuel with
  | zero =>
    intro counter hex
    obtain ⟨j, hj, _⟩ := hex
    omega
  | succ fuel ih =>
    intro counter hex
    by_cases hc : boxIdFormat counter ∈ ex
    · obtain ⟨j, hj, hnot⟩ := hex
      have hj0 : j ≠ 0 := by
        rintro rfl
        simp only [Nat.add_zero] at hnot
        exact hnot hc
      have hex2 : ∃ j2, j2 < fuel ∧ boxIdFormat (counter + 1 + j2) ∉ ex := by
        refine ⟨j - 1, by omega, ?_⟩
        rw [show counter + 1 + (j - 1) = counter + j by omega]
        exact hnot
      obtain ⟨j2, hj2, hres, hnot2, hmin⟩ := ih (counter + 1) hex2
      refine ⟨j2 + 1, by omega, ?_, ?_, ?_⟩
      · rw [show genLoop ex (fuel + 1) counter = genLoop ex fuel (counter + 1) from by
          simp [genLoop, hc]]
        rw [hres, show counter + 1 + j2 = counter + (j2 + 1) by omega]
      · rw [show counter + (j2 + 1) = counter + 1 + j2 by omega]
        exact hnot2
      · intro i hi
        cases i with
        | zero => simpa using hc
        | succ i2 =>
          rw [show counter + (i2 + 1) = counter + 1 + i2 by omega]
          exact hmin i2 (by omega)
    · refine ⟨0, by omega, ?_, by simpa using hc, by omega⟩
      simp [genLoop, hc]

theorem exists_free_counter (ex : List String) (c : Nat) (hc : c ≠ 0) :
    ∃ j, j < ex.length + 1 ∧ boxIdFormat (c + j) ∉ ex := by
  by_contra hall
  push_neg at hall
  have hnodup : ((List.range (ex.length + 1)).map (fun j => boxIdFormat (c + j))).Nodup := by
    apply List.Nodup.map_on
    · intro x _ y _ hxy
      have := boxIdFormat_inj (c + x) (c + y) (by omega) (by omega) hxy
      omega
    · exact List.nodup_range _
  have hsub : ((List.range (ex.length + 1)).map (fun j => boxIdFormat (c + j))) ⊆ ex := by
    intro s hs
    simp only [List.mem_map, List.mem_range] at hs
    obtain ⟨j, hj, rfl⟩ := hs
    exact hall j hj
  have hlen := (List.subperm_of_subset hnodup hsub).length_le
  simp at hlen

theorem genFromList_spec (ex : List String) :
    genFromList ex ∉ ex
    ∧ ∃ k, k ≠ 0 ∧ genFromList ex = boxIdFormat k
        ∧ ∀ j, j ≠ 0 → j < k → boxIdFormat j ∈ ex := by
  obtain ⟨j, _, hres, hnot, hmin⟩ :=
    genLoop_spec ex (ex.length + 1) 1 (exists_free_counter ex 1 one_ne_zero)
  rw [genFromList, hres]
  refine ⟨hnot, 1 + j, by omega, rfl, ?_⟩
  intro i hi0 hik
  have := hmin (i - 1) (by omega)
  rw [show 1 + (i - 1) = i by omega] at this
  exact this

theorem genFromList_eq_of_least (ex : List String) (k : Nat) (hk : k ≠ 0)
    (hfree : boxIdFormat k ∉ ex) (hmin : ∀ j, j ≠ 0 → j < k → boxIdFormat j ∈ ex) :
    genFromList ex = boxIdFormat k := by
  obtain ⟨hnot, k2, hk2, hres, hmin2⟩ := genFromList_spec ex
  rw [hres] at hnot ⊢
  rcases Nat.lt_trichotomy k2 k with h | h | h
  · exact absurd (hmin k2 hk2 h) hnot
  · rw [h]
  · exact absurd (hmin2 k hk h) hfree

/-- C3: for every store state, `generate_box_id` returns the smallest
identifier of the form `box-001`, `box-002`, … not already present among
the stored box ids; in particular it never returns an existing id, and a
second call — after any intervening creations that do not create the first
returned id — returns the same value. -/
theorem c3_generate_box_id (fs : FS) :
    generate_box_id fs ∉ fs.boxes.map Prod.fst
    ∧ (∃ k, k ≠ 0 ∧ generate_box_id fs = boxIdFormat k
        ∧ ∀ j, j ≠ 0 → j < k → boxIdFormat j ∈ fs.boxes.map Prod.fst)
    ∧ ∀ (fs2 : FS) (added : List String),
        fs2.boxes.map Prod.fst = added ++ fs.boxes.map Prod.fst →
        generate_box_id fs ∉ added →
        generate_box_id fs2 = generate_box_id fs := by
  simp only [generate_box_id]
  obtain ⟨hnot, k, hk, hres, hmin⟩ := genFromList_spec (fs.boxes.map Prod.fst)
  refine ⟨hnot, ⟨k, hk, hres, hmin⟩, ?_⟩
  intro fs2 added hstems hadded
  rw [hstems, hres]
  rw [hres] at hadded hnot
  apply genFromList_eq_of_least _ k hk
  · intro hmem
    rcases List.mem_append.mp hmem with h | h
    · exact hadded h
    · exact hnot h
  · intro j hj0 hjk
    exact List.mem_append.mpr (Or.inr (hmin j hj0 hjk))

theorem c3_generate_box_id_witness :
    generate_box_id ⟨[("zzz", "y"), ("box-001", "x")], []⟩
      = generate_box_id ⟨[("box-001", "x")], []⟩
    ∧ generate_box_id ⟨[("box-001", "x")], []⟩ = "box-002" :=
  ⟨(c3_generate_box_id ⟨[("box-001", "x")], []⟩).2.2
      ⟨[("zzz", "y"), ("box-001", "x")], []⟩ ["zzz"] (by decide) (by decide),
    by decide⟩

/-! ## C1 groundwork: sanitizer and path facts -/

theorem dropWhile_head_false (p : Char → Bool) (l : List Char) (c : Char) (cs : List Char)
    (h : l.dropWhile p = c :: cs) : p c = false := by
  induction l with
  | nil => simp at h
  | cons a t ih =>
    rw [List.dropWhile_cons] at h
    by_cases hpa : p a = true
    · rw [if_pos hpa] at h
      exact ih h
    · have hpa2 : p a = false := by simpa using hpa
      rw [hpa2] at h
      simp only [Bool.false_eq_true, if_false] at h
      injection h with h1 _
      subst h1
      exact hpa2

theorem stripBoth_reverse_head_false (p : Char → Bool) (l : List Char) (c : Char)
    (cs : List Char) (h : (stripBoth p l).reverse = c :: cs) : p c = false := by
  rw [stripBoth, List.reverse_reverse] at h
  exact dropWhile_head_false p _ c cs h

theorem mem_stripBoth (p : Char → Bool) (l : List Char) (c : Char)
    (h : c ∈ stripBoth p l) : c ∈ l := by
  rw [stripBoth, List.mem_reverse] at h
  have h1 := (List.dropWhile_sublist (p := p)).subset h
  rw [List.mem_reverse] at h1
  exact (List.dropWhile_sublist (p := p)).subset h1

theorem secure_filename_chars (f : String) (c : Char)
    (h : c ∈ (secure_filename f).data) : allowedFnChar c = true := by
  have h1 := mem_stripBoth _ _ _ h
  exact (List.mem_filter.mp h1).2

theorem secure_filename_no_slash (f : String) : '/' ∉ (secure_filename f).data := by
  intro h
  have := secure_filename_chars f '/' h
  exact absurd this (by decide)

theorem secure_filename_ne_dotdot (f : String) : secure_filename f ≠ ".." := by
  intro h
  have hdata : (secure_filename f).data = ['.', '.'] := congrArg String.data h
  have hrev : ((secure_filename f).data).reverse = '.' :: ['.'] := by rw [hdata]; rfl
  have := stripBoth_reverse_head_false (fun c => c == '.' || c == '_') _ '.' ['.'] hrev
  exact absurd this (by decide)

theorem secure_filename_ne_dot (f : String) : secure_filename f ≠ "." := by
  intro h
  have hdata : (secure_filename f).data = ['.'] := congrArg String.data h
  have hrev : ((secure_filename f).data).reverse = '.' :: [] := by rw [hdata]; rfl
  have := stripBoth_reverse_head_false (fun c => c == '.' || c == '_') _ '.' [] hrev
  exact absurd this (by decide)

theorem splitOnPred_all_false (p : Char → Bool) (l : List Char)
    (h : ∀ c ∈ l, p c = false) : splitOnPred p l = [l] := by
  induction l with
  | nil => rfl
  | cons c cs ih =>
    have hc : p c = false := h c (by simp)
    have ih2 : splitOnPred p cs = [cs] := ih (fun d hd => h d (by simp [hd]))
    simp [splitOnPred, hc, ih2]

theorem splitSegs_no_slash (s : String) (h : '/' ∉ s.data) :
    splitSegs s = if s = "" ∨ s = "." then [] else [s] := by
  have hall : ∀ c ∈ s.data, (c == '/') = false := by
    intro c hc
    simp only [beq_eq_false_iff_ne]
    rintro rfl
    exact h hc
  unfold splitSegs splitOnChar
  rw [splitOnPred_all_false _ _ hall]
  have hs : String.mk s.data = s := rfl
  by_cases h0 : s = "" ∨ s = "."
  · rw [if_pos h0]
    rcases h0 with h0 | h0 <;> subst h0 <;> rfl
  · rw [if_neg h0]
    push_neg at h0
    simp only [List.map_cons, List.map_nil, hs, List.filter]
    have hb : (s != "" && s != ".") = true := by
      simp [h0.1, h0.2]
    rw [hb]

theorem head?_ne_slash_of_no_slash (l : List Char) (h : '/' ∉ l) :
    l.head? ≠ some '/' := by
  cases l with
  | nil => simp
  | cons c cs =>
    intro hc
    have hc2 : c = '/' := by simpa using hc
    subst hc2
    exact h (by simp)

theorem foldl_normStep_no_dotdot (l : List String) : ∀ (acc : List String),
    (∀ s ∈ l, s ≠ "..") → l.foldl normStep acc = l.reverse ++ acc := by
  induction l with
  | nil => intro acc _; simp
  | cons s t ih =>
    intro acc h
    have hs : s ≠ ".." := h s (by simp)
    have hstep : normStep acc s = s :: acc := by
      unfold normStep
      rw [if_neg hs]
    rw [List.foldl_cons, hstep, ih (s :: acc) (fun x hx => h x (by simp [hx]))]
    simp

theorem normSegs_no_dotdot (l : List String) (h : ∀ s ∈ l, s ≠ "..") :
    normSegs l = l := by
  rw [normSegs, foldl_normStep_no_dotdot l [] h]
  simp

/-- C1: for every box id reachable from the routing layer (nonempty, no
`'/'` — the default URL converter matches `[^/]+`) and every photo
filename string whatsoever, the markdown file path stays under the boxes
directory and the served photo file path stays under that box's photo
directory: after `".."` resolution the directory is a prefix of the file
path. -/
theorem c1_paths_stay_in_owning_dirs (box_id filename : String)
    (hne : box_id ≠ "") (hslash : '/' ∉ box_id.data) :
    normSegs ["boxes"] <+: normSegs (boxMdPath box_id)
    ∧ normSegs (photoDirPath box_id) <+: normSegs (photoFilePath box_id filename) := by
  constructor
  · -- the markdown path
    have hmd_data : (box_id ++ ".md").data = box_id.data ++ ['.', 'm', 'd'] := by
      rw [String.data_append]
    have hlen : (box_id ++ ".md").data.length = box_id.data.length + 3 := by
      rw [hmd_data]
      simp
    have hno : '/' ∉ (box_id ++ ".md").data := by
      rw [hmd_data]
      intro hm
      rcases List.mem_append.mp hm with hm | hm
      · exact hslash hm
      · simp at hm
    have hne2 : box_id ++ ".md" ≠ "" := by
      intro h
      have := congrArg (fun s => s.data.length) h
      simp only [hlen] at this
      simp at this
    have hnedot : box_id ++ ".md" ≠ "." := by
      intro h
      have := congrArg (fun s => s.data.length) h
      simp only [hlen] at this
      simp at this
    have hnedd : box_id ++ ".md" ≠ ".." := by
      intro h
      have := congrArg (fun s => s.data.length) h
      simp only [hlen] at this
      simp at this
    have hsegs : splitSegs (box_id ++ ".md") = [box_id ++ ".md"] := by
      rw [splitSegs_no_slash _ hno, if_neg (by push_neg; exact ⟨hne2, hnedot⟩)]
    have hjoin : boxMdPath box_id = ["boxes", box_id ++ ".md"] := by
      unfold boxMdPath pathJoin
      rw [if_neg (head?_ne_slash_of_no_slash _ hno), hsegs]
      rfl
    rw [hjoin, show normSegs ["boxes"] = ["boxes"] from by decide,
      normSegs_no_dotdot ["boxes", box_id ++ ".md"] (by
        intro s hs
        simp only [List.mem_cons, List.not_mem_nil, or_false] at hs
        rcases hs with rfl | rfl
        · decide
        · exact hnedd)]
    exact ⟨[box_id ++ ".md"], rfl⟩
  · -- the photo path
    have hsec_no := secure_filename_no_slash filename
    have hsec_dd := secure_filename_ne_dotdot filename
    have hsec_d := secure_filename_ne_dot filename
    have hfile : photoFilePath box_id filename
        = photoDirPath box_id ++ splitSegs (secure_filename filename) := by
      unfold photoFilePath pathJoin
      rw [if_neg (head?_ne_slash_of_no_slash _ hsec_no)]
    by_cases hdd : box_id = ".."
    · subst hdd
      rw [hfile]
      rw [show normSegs (photoDirPath "..") = [] from by decide]
      exact List.nil_prefix
    · have hdir : photoDirPath box_id = ["photos"]
          ∨ photoDirPath box_id = ["photos", box_id] := by
        unfold photoDirPath pathJoin
        rw [if_neg (head?_ne_slash_of_no_slash _ hslash), splitSegs_no_slash _ hslash]
        by_cases h0 : box_id = "" ∨ box_id = "."
        · left
          rw [if_pos h0]
          simp
        · right
          rw [if_neg h0]
          simp
      have hsegsec : splitSegs (secure_filename filename) = []
          ∨ splitSegs (secure_filename filename) = [secure_filename filename] := by
        rw [splitSegs_no_slash _ hsec_no]
        by_cases h0 : secure_filename filename = ""
        · left; rw [if_pos (Or.inl h0)]
        · right; rw [if_neg (by push_neg; exact ⟨h0, hsec_d⟩)]
      rw [hfile]
      have hmemdir : ∀ s ∈ photoDirPath box_id, s ≠ ".." := by
        intro s hs
        rcases hdir with hd | hd <;> rw [hd] at hs <;>
          simp only [List.mem_cons, List.not_mem_nil, or_false] at hs
        · subst hs; decide
        · rcases hs with rfl | rfl
          · decide
          · exact hdd
      have hmemfile : ∀ s ∈ photoDirPath box_id ++ splitSegs (secure_filename filename),
          s ≠ ".." := by
        intro s hs
        rcases List.mem_append.mp hs with hs | hs
        · exact hmemdir s hs
        · rcases hsegsec with hseg | hseg <;> rw [hseg] at hs
          · simp at hs
          · simp only [List.mem_singleton] at hs
            subst hs
            exact hsec_dd
      rw [normSegs_no_dotdot _ hmemdir, normSegs_no_dotdot _ hmemfile]
      exact ⟨splitSegs (secure_filename filename), rfl⟩

theorem c1_paths_stay_in_owning_dirs_witness :
    ("box-001" : String) ≠ ""
    ∧ '/' ∉ ("box-001" : String).data
    ∧ (normSegs ["boxes"] <+: normSegs (boxMdPath "box-001")
      ∧ normSegs (photoDirPath "box-001")
          <+: normSegs (photoFilePath "box-001" "../../../etc/passwd")) :=
  ⟨by decide, by decide,
    c1_paths_stay_in_owning_dirs "box-001" "../../../etc/passwd" (by decide) (by decide)⟩

end BoxStorage
